import Mathlib

/-!
# Shallow embedding of the `simplestackmachine` toolchain

This file embeds the core of the repository — the byte-code data model and the
stack-machine interpreter of `src/smachine/vm.rs`, the binary codec of
`src/smachine/compiler.rs`, and the semantics of the x86-64 code emitted by
`VM::jit` — as executable Lean definitions, and proves/refutes the frozen
specification claims about them.

Modelling conventions:
* Rust machine integers (`u64`, `usize`, `u8`, …) are `Nat` with explicit
  `% 2 ^ w` at the points where the Rust code truncates, wraps or
  sign-extends.
* Rust `Option`-returning fallible handlers become Lean functions returning
  `Option Nat × VMState` (the handler's result together with the mutated
  state, mirroring `&mut self` methods returning `Option<u64>`).
* The operand stack `Box<[u64; MAX_SIZE]>` is modelled as a total function
  `Nat → Nat` together with the stack pointer `sp`; only indices `< 10`
  (`MAX_SIZE = 10` in the source) are ever read or written by the code.
* `HashMap<usize, u64>` / `HashMap<usize, fn>` become `Nat → Option _`
  association functions.  A JIT-compiled procedure is represented by the
  byte-code slice it was compiled from; invoking it means evaluating the
  embedded semantics of the machine code `VM::jit` emits for that slice.
* Writes to standard output by `prt` are modelled by an `out : List Nat`
  field accumulating the printed scalar values.
-/

namespace SSM

/-- The function-update used to model writes into the stack array. -/
def updFn (f : Nat → Nat) (i v : Nat) : Nat → Nat :=
  fun j => if j = i then v else f j

/-- Update of an association function, modelling `HashMap::insert`. -/
def updMap {α : Type} (f : Nat → Option α) (i : Nat) (v : α) : Nat → Option α :=
  fun j => if j = i then some v else f j

/-- `TokenType` from `src/smachine/compiler.rs`: the opcode enumeration, in
the exact declaration order (the ordinal is the opcode byte). -/
inductive TokenType where
  | Push | Pop
  | Uadd8 | Usub8 | Uadd16 | Usub16 | Uadd32 | Usub32 | Uadd64 | Usub64
  | Add8 | Sub8 | Add16 | Sub16 | Add32 | Sub32 | Add64 | Sub64
  | Addf64 | Subf64 | Addf32 | Subf32
  | Prt | Inc | Dup | Jmp | Call | Jmpp | Halt | Ret | Swap
  | Jeq | Jnz | Cmp | Int
  | Value | Label | Name | Err
deriving DecidableEq, Repr

namespace TokenType

/-- `TokenType::from(opcode: u8)`: ordinals below `Err as u8 = 38` transmute
to the corresponding variant, everything else decodes to `Err`. -/
def fromOpcode (opcode : Nat) : TokenType :=
  match opcode with
  | 0 => .Push | 1 => .Pop
  | 2 => .Uadd8 | 3 => .Usub8 | 4 => .Uadd16 | 5 => .Usub16
  | 6 => .Uadd32 | 7 => .Usub32 | 8 => .Uadd64 | 9 => .Usub64
  | 10 => .Add8 | 11 => .Sub8 | 12 => .Add16 | 13 => .Sub16
  | 14 => .Add32 | 15 => .Sub32 | 16 => .Add64 | 17 => .Sub64
  | 18 => .Addf64 | 19 => .Subf64 | 20 => .Addf32 | 21 => .Subf32
  | 22 => .Prt | 23 => .Inc | 24 => .Dup | 25 => .Jmp | 26 => .Call
  | 27 => .Jmpp | 28 => .Halt | 29 => .Ret | 30 => .Swap
  | 31 => .Jeq | 32 => .Jnz | 33 => .Cmp | 34 => .Int
  | 35 => .Value | 36 => .Label | 37 => .Name
  | _ => .Err

end TokenType

/-- `ByteCode` from `src/smachine/compiler.rs`: `(opcode: u8, value: u64)`.
Well-formed records satisfy `opcode < 256` and `value < 2 ^ 64`. -/
structure ByteCode where
  opcode : Nat
  value : Nat
deriving DecidableEq, Repr

/-- `MAX_SIZE` from `src/smachine/vm.rs` line 14: the stack capacity the code
actually compiles with (the commented-out alternative is `524288`). -/
def MAX_SIZE : Nat := 10

/-- The VM state, mirroring `struct VM` in `src/smachine/vm.rs`.
`funcs_used` is the per-procedure invocation counter; `compiled_procs`
stores, for each promoted entry, the byte-code slice the JIT compiled
(standing in for the native function pointer).  `out` accumulates the
Unicode scalars printed by `prt`. -/
structure VMState where
  pc : Nat
  bin : List ByteCode
  stack : Nat → Nat
  sp : Nat
  proc_pc : Nat
  should_increment_pc : Bool
  funcs_used : Nat → Option Nat
  compiled_procs : Nat → Option (List ByteCode)
  out : List Nat

/-- `VM::new`. -/
def VMState.new (bin : List ByteCode) : VMState :=
  { pc := 0, bin := bin, stack := fun _ => 0, sp := 0, proc_pc := 0,
    should_increment_pc := true, funcs_used := fun _ => none,
    compiled_procs := fun _ => none, out := [] }

/-- Sign-extension step of `NumberBits::into_bits` for a signed width-`w`
result `r < 2 ^ w`: `self as u64` on `iN` sign-extends the two's-complement
bit pattern to 64 bits.  For unsigned types `into_bits` zero-extends. -/
def sext (w : Nat) (sgn : Bool) (r : Nat) : Nat :=
  if sgn ∧ 2 ^ (w - 1) ≤ r then 2 ^ 64 - 2 ^ w + r else r

/-- `T::from_bits(a) + T::from_bits(b)` followed by `into_bits`, for an
integer type of width `w` (signedness `sgn`): truncate both operands to `w`
bits, add with wrap-around at width `w`, re-extend to 64 bits. -/
def intAdd (w : Nat) (sgn : Bool) (a b : Nat) : Nat :=
  sext w sgn ((a % 2 ^ w + b % 2 ^ w) % 2 ^ w)

/-- `T::from_bits(a) - T::from_bits(b)` followed by `into_bits`: wrapping
subtraction at width `w`, re-extended to 64 bits. -/
def intSub (w : Nat) (sgn : Bool) (a b : Nat) : Nat :=
  sext w sgn ((2 ^ w + a % 2 ^ w - b % 2 ^ w) % 2 ^ w)

/-- Wrapping 64-bit signed subtraction `(a as i64 - b as i64) as u64`: on
bit patterns this is subtraction modulo `2 ^ 64`. -/
def wsub64 (a b : Nat) : Nat :=
  (2 ^ 64 + a % 2 ^ 64 - b % 2 ^ 64) % 2 ^ 64

/-- Placeholder for the bit-level result of `f32`/`f64` addition
(`addf`/`subf` in the source).  IEEE floating point is outside this
embedding (the spec lists float conformance as a non-goal) and no claim
concerns the float opcodes; the dispatch structure is kept faithful while
the arithmetic itself is not modelled. -/
def floatAddBits (_w _a _b : Nat) : Nat := 0

/-- Placeholder for the bit-level result of `f32`/`f64` subtraction; see
`floatAddBits`. -/
def floatSubBits (_w _a _b : Nat) : Nat := 0

/-- `char::from_u32(x)` succeeds iff `x` is a Unicode scalar value. -/
def isValidChar (x : Nat) : Prop :=
  x < 0xD800 ∨ (0xE000 ≤ x ∧ x < 0x110000)

instance (x : Nat) : Decidable (isValidChar x) := by
  unfold isValidChar; infer_instance

namespace VM

/-- `VM::push`: fails (printing `STACK OVERFLOW`) when `sp == MAX_SIZE`,
otherwise writes at `stack[sp]` and increments `sp`. -/
def push (s : VMState) (value : Nat) : Option Nat × VMState :=
  if s.sp = MAX_SIZE then (none, s)
  else (some 0, { s with stack := updFn s.stack s.sp value, sp := s.sp + 1 })

/-- `VM::pop`: fails when `sp == 0`, otherwise decrements `sp` and returns
`stack[sp]`. -/
def pop (s : VMState) : Option Nat × VMState :=
  if s.sp = 0 then (none, s)
  else (some (s.stack (s.sp - 1)), { s with sp := s.sp - 1 })

/-- `VM::add::<T>` for the integer instantiations: pop `value1` then
`value2`; on success push `(T::from_bits(value1) + T::from_bits(value2))
.into_bits()` and propagate the push's result; on underflow fail. -/
def add (s : VMState) (w : Nat) (sgn : Bool) : Option Nat × VMState :=
  let (v1, s1) := pop s
  let (v2, s2) := pop s1
  match v1, v2 with
  | some value1, some value2 => push s2 (intAdd w sgn value1 value2)
  | _, _ => (none, s2)

/-- `VM::sub::<T>`: pop `value1` then `value2`; push
`(T::from_bits(value2) - T::from_bits(value1)).into_bits()` — the
second-popped operand minus the top. -/
def sub (s : VMState) (w : Nat) (sgn : Bool) : Option Nat × VMState :=
  let (v1, s1) := pop s
  let (v2, s2) := pop s1
  match v1, v2 with
  | some value1, some value2 => push s2 (intSub w sgn value2 value1)
  | _, _ => (none, s2)

/-- `VM::addf::<T>`: pop twice, push the float sum's bits, return `Some(0)`
(the push's own result is discarded). -/
def addf (s : VMState) (w : Nat) : Option Nat × VMState :=
  let (v1, s1) := pop s
  let (v2, s2) := pop s1
  match v1, v2 with
  | some b1, some b2 =>
    let (_, s3) := push s2 (floatAddBits w b1 b2)
    (some 0, s3)
  | _, _ => (none, s2)

/-- `VM::subf::<T>`: pop twice, push `(v2 - v1)`'s bits, return `Some(0)`. -/
def subf (s : VMState) (w : Nat) : Option Nat × VMState :=
  let (v1, s1) := pop s
  let (v2, s2) := pop s1
  match v1, v2 with
  | some b1, some b2 =>
    let (_, s3) := push s2 (floatSubBits w b2 b1)
    (some 0, s3)
  | _, _ => (none, s2)

/-- `VM::prt`: pop `v`; if `v as u32` is a valid Unicode scalar, print it
and return `Some(v)` (the value is **not** pushed back); otherwise report
and fail. -/
def prt (s : VMState) : Option Nat × VMState :=
  let (v1, s1) := pop s
  match v1 with
  | some value1 =>
    if isValidChar (value1 % 2 ^ 32) then
      (some value1, { s1 with out := s1.out ++ [value1 % 2 ^ 32] })
    else (none, s1)
  | none => (none, s1)

/-- `VM::inc::<u64>`: pop `v`; fail if `v == u64::MAX`; else push `v + 1`
and return `Some(0)` (push result discarded). -/
def inc (s : VMState) : Option Nat × VMState :=
  let (v, s1) := pop s
  match v with
  | some value =>
    if value = 2 ^ 64 - 1 then (none, s1)
    else
      let (_, s2) := push s1 (value + 1)
      (some 0, s2)
  | none => (none, s1)

/-- `VM::dup`: pop `v`, push `v` twice (push results discarded), `Some(0)`. -/
def dup (s : VMState) : Option Nat × VMState :=
  let (v, s1) := pop s
  match v with
  | some value =>
    let (_, s2) := push s1 value
    let (_, s3) := push s2 value
    (some 0, s3)
  | none => (none, s1)

/-- `VM::swap`: if `sp > k`, pop `sf`, let `pos = sp - k` (with the
decremented `sp`), write `sf` at `pos` and push the former `stack[pos]`. -/
def swap (s : VMState) (swap_value : Nat) : Option Nat × VMState :=
  if s.sp > swap_value then
    let (v, s1) := pop s
    match v with
    | some sf =>
      let pos := s1.sp - swap_value
      let val := s1.stack pos
      let s2 := { s1 with stack := updFn s1.stack pos sf }
      let (_, s3) := push s2 val
      (some 0, s3)
    | none => (none, s1)
  else (none, s)

/-- `VM::jmp`: suppress the increment, then fail on `pc >= bin.len()`,
else set the program counter. -/
def jmp (s : VMState) (pc : Nat) : Option Nat × VMState :=
  let s := { s with should_increment_pc := false }
  if pc ≥ s.bin.length then (none, s)
  else (some 0, { s with pc := pc })

/-- The subset of opcodes `VM::jit` can lower: `Push`, `Pop`, `Swap`,
`Uadd64`, `Ret`; any other opcode aborts compilation. -/
def jitCompiles (body : List ByteCode) : Bool :=
  body.all fun b =>
    match TokenType.fromOpcode b.opcode with
    | .Push | .Pop | .Swap | .Uadd64 | .Ret => true
    | _ => false

/-- `List.set`-based helper: the effect of the emitted `Swap k` machine code
(`mov rax,[rsp]; xchg rax,[rsp+8k]; mov [rsp],rax`) on the private native
stack: exchange the top with the element `k` positions below it. -/
def swapList (st : List Nat) (k : Nat) : List Nat :=
  (st.set 0 (st.getD k 0)).set k (st.getD 0 0)

/-- Semantics of the machine code `VM::jit` emits for a byte-code slice,
executed on the host call stack.  `st` is the procedure's private stack
(the words it pushed above the caller's return address, top first) and the
second result component tracks the maximum private depth reached (the
native code has no capacity limit; the depth is needed to compare with the
10-word interpreter stack).  Any access at or beyond the return-address
slot — popping or swapping past the private words, falling off the end of
the buffer, or `ret` with a private depth other than one — would read or
clobber the host return address and is modelled as failure. -/
def nativeTrace : List ByteCode → List Nat → Nat → Option (Nat × Nat)
  | [], _, _ => none
  | b :: rest, st, m =>
    match TokenType.fromOpcode b.opcode with
    | .Push => nativeTrace rest (b.value :: st) (max m (st.length + 1))
    | .Pop =>
      match st with
      | [] => none
      | _ :: st' => nativeTrace rest st' m
    | .Swap =>
      if b.value < st.length then nativeTrace rest (swapList st b.value) m
      else none
    | .Uadd64 =>
      match st with
      | a :: c :: st' => nativeTrace rest (((a + c) % 2 ^ 64) :: st') m
      | _ => none
    | .Ret =>
      match st with
      | [r] => some (r, m)
      | _ => none
    | _ => none

/-- The value a JIT-compiled procedure returns in `rax`, when its native
execution is well defined. -/
def nativeRun (body : List ByteCode) (st : List Nat) : Option Nat :=
  (nativeTrace body st st.length).map Prod.fst

/-- `VM::jit` as it affects the VM state: on success (every opcode in the
slice is supported) install the slice at the current `proc_pc`; the
assembler/mmap plumbing is not modelled and is taken to succeed. -/
def jit (s : VMState) (body : List ByteCode) : VMState :=
  if jitCompiles body then
    { s with compiled_procs := updMap s.compiled_procs s.proc_pc body }
  else s

/-- `VM::call`: if the target is promoted, invoke the native function and
push its result (push result discarded), without building a frame; the
native function's result on an ill-defined execution is undefined behaviour
in the source and is modelled by an arbitrary placeholder `0`.  Otherwise
bump the invocation counter, push `sp` then `pc` (both push results
discarded), set `proc_pc` and jump. -/
def call (s : VMState) (pc : Nat) : Option Nat × VMState :=
  match s.compiled_procs pc with
  | some body =>
    let res := (nativeRun body []).getD 0
    let (_, s1) := push s res
    (some 0, s1)
  | none =>
    let s1 := { s with
      funcs_used := updMap s.funcs_used pc
        (match s.funcs_used pc with
         | some func_value => func_value + 1
         | none => 1) }
    let (_, s2) := push s1 s1.sp
    let (_, s3) := push s2 s2.pc
    let s4 := { s3 with proc_pc := pc }
    jmp s4 pc

/-- `VM::jmpp`: suppress the increment, pop the target, fail when it is out
of bounds — and otherwise return `Some(0)` without ever assigning `pc`
(the assignment is missing in the source). -/
def jmpp (s : VMState) : Option Nat × VMState :=
  let s := { s with should_increment_pc := false }
  let (v, s1) := pop s
  match v with
  | some pc =>
    if pc ≥ s1.bin.length then (none, s1) else (some 0, s1)
  | none => (none, s1)

/-- `VM::jeq`: pop `v`; when `v == 0` perform `jmp` but discard its result;
always return `Some(0)` after a successful pop. -/
def jeq (s : VMState) (address : Nat) : Option Nat × VMState :=
  let (v, s1) := pop s
  match v with
  | some value =>
    if value = 0 then
      let (_, s2) := jmp s1 address
      (some 0, s2)
    else (some 0, s1)
  | none => (none, s1)

/-- `VM::jnz`: pop `v`; when `v != 0` perform `jmp` but discard its result. -/
def jnz (s : VMState) (address : Nat) : Option Nat × VMState :=
  let (v, s1) := pop s
  match v with
  | some value =>
    if value ≠ 0 then
      let (_, s2) := jmp s1 address
      (some 0, s2)
    else (some 0, s1)
  | none => (none, s1)

/-- `VM::cmp`: pop `value1` (the top) then `value2`; push
`(value1 as i64 - value2 as i64) as u64` (push result discarded). -/
def cmp (s : VMState) : Option Nat × VMState :=
  let (v1, s1) := pop s
  let (v2, s2) := pop s1
  match v1, v2 with
  | some value1, some value2 =>
    let (_, s3) := push s2 (wsub64 value1 value2)
    (some 0, s3)
  | _, _ => (none, s2)

/-- `VM::halt`: set `pc = bin.len()` (the increment is *not* suppressed). -/
def halt (s : VMState) : Option Nat × VMState :=
  (some 0, { s with pc := s.bin.length })

/-- The promotion check at the top of `VM::ret`: when the current
procedure's invocation count equals `INTERPRETED_EXECUTIONS = 1`, JIT the
slice `bin[proc_pc .. pc + 1]`. -/
def retPromote (s : VMState) : VMState :=
  match s.funcs_used s.proc_pc with
  | some func_value =>
    if func_value = 1 then
      jit s ((s.bin.drop s.proc_pc).take (s.pc + 1 - s.proc_pc))
    else s
  | none => s

/-- `VM::ret`: after the promotion check, pop the return value (defaulting
to `0` if the stack is empty), pop the return pc `p` (fail if the stack is
empty or `p > bin.len()`), pop the saved sp (silently skipping the restore
when that pop fails; fail if the popped value exceeds the stack length),
restore `sp`, set `pc = p` and push the return value (push result
discarded). -/
def ret (s : VMState) : Option Nat × VMState :=
  let s := retPromote s
  let (v1, s1) := pop s
  let retv := match v1 with
    | some val => val
    | none => 0
  let (vp, s2) := pop s1
  match vp with
  | some p =>
    if p > s2.bin.length then (none, s2)
    else
      let (vs, s3) := pop s2
      match vs with
      | some spv =>
        if spv > MAX_SIZE then (none, s3)
        else
          let s4 := { s3 with sp := spv, pc := p }
          let (_, s5) := push s4 retv
          (some 0, s5)
      | none =>
        let s4 := { s3 with pc := p }
        let (_, s5) := push s4 retv
        (some 0, s5)
  | none => (none, s2)

/-- `VM::int`: pop `n`; when `n == 0` perform `halt` (result discarded). -/
def int (s : VMState) : Option Nat × VMState :=
  let (v, s1) := pop s
  match v with
  | some int_value =>
    if int_value = 0 then
      let (_, s2) := halt s1
      (some 0, s2)
    else (some 0, s1)
  | none => (none, s1)

/-- The dispatch match of `VM::eval`: dispatch on
`TokenType::from(binary.opcode)` exactly as the source match does (note
`Sub8` is wired to `add::<i8>` in the source). -/
def evalCore (s : VMState) (binary : ByteCode) : Option Nat × VMState :=
  match TokenType.fromOpcode binary.opcode with
    | .Push => push s binary.value
    | .Pop => pop s
    | .Uadd8 => add s 8 false
    | .Usub8 => sub s 8 false
    | .Uadd16 => add s 16 false
    | .Usub16 => sub s 16 false
    | .Uadd32 => add s 32 false
    | .Usub32 => sub s 32 false
    | .Uadd64 => add s 64 false
    | .Usub64 => sub s 64 false
    | .Add8 => add s 8 true
    | .Sub8 => add s 8 true
    | .Add16 => add s 16 true
    | .Sub16 => sub s 16 true
    | .Add32 => add s 32 true
    | .Sub32 => sub s 32 true
    | .Add64 => add s 64 true
    | .Sub64 => sub s 64 true
    | .Addf64 => addf s 64
    | .Subf64 => subf s 64
    | .Addf32 => addf s 32
    | .Subf32 => subf s 32
    | .Prt => prt s
    | .Inc => inc s
    | .Dup => dup s
    | .Swap => swap s binary.value
    | .Jmp => jmp s binary.value
    | .Call => call s binary.value
    | .Jmpp => jmpp s
    | .Cmp => cmp s
    | .Halt => halt s
    | .Ret => ret s
    | .Jeq => jeq s binary.value
    | .Jnz => jnz s binary.value
    | .Int => int s
    | _ => (none, s)

/-- `VM::eval`: run the dispatch, then increment `pc` when
`should_increment_pc` is still set — regardless of whether the handler
failed. -/
def eval (s : VMState) (binary : ByteCode) : Option Nat × VMState :=
  let (result, s') := evalCore s binary
  if s'.should_increment_pc then (result, { s' with pc := s'.pc + 1 })
  else (result, s')

/-- One iteration of the `VM::run` loop body (executed only when
`pc < bin.len()`): reset `should_increment_pc`, fetch `bin[pc]`, evaluate. -/
def iter (s : VMState) : Option Nat × VMState :=
  eval { s with should_increment_pc := true } (s.bin.getD s.pc ⟨0, 0⟩)

/-- `n` iterations of the run-loop body, stopping early (with `false`) when
a handler fails; used to follow an execution across a known number of
instruction boundaries. -/
def iterN : Nat → VMState → VMState × Bool
  | 0, s => (s, true)
  | n + 1, s =>
    match iter s with
    | (none, s') => (s', false)
    | (some _, s') => iterN n s'

/-- `VM::run`: loop while `pc < bin.len()`; stop (returning `false`, the
"Segmentation fault" path) when a handler fails.  `fuel` bounds the number
of iterations; with insufficient fuel the run is returned as-is. -/
def run : Nat → VMState → VMState × Bool
  | 0, s => (s, true)
  | fuel + 1, s =>
    if s.pc < s.bin.length then
      match iter s with
      | (none, s') => (s', false)
      | (some _, s') => run fuel s'
    else (s, true)

end VM

/-! ## Binary codec (`write_bin` / `read_bin` in `src/smachine/compiler.rs`)

The file contents are modelled as a list of byte values.  `write_bin`
writes the record count as 8 little-endian bytes, then each record as
`[opcode: 1 byte][value: 8 little-endian bytes]`; `read_bin` reads the
count and then exactly `count` records, failing on any short read
(`read_exact`). -/

/-- `n.to_le_bytes` truncated/zero-padded to `k` bytes, little endian. -/
def leBytes : Nat → Nat → List Nat
  | 0, _ => []
  | k + 1, n => n % 256 :: leBytes k (n / 256)

/-- `from_le_bytes`: the value of a little-endian byte list. -/
def leVal : List Nat → Nat
  | [] => 0
  | b :: bs => b + 256 * leVal bs

/-- `ByteCode::write_to_bin`: the 9 bytes of one record. -/
def encodeRecord (b : ByteCode) : List Nat :=
  b.opcode :: leBytes 8 b.value

/-- The body of `write_bin`'s loop: each record in order. -/
def encodeRecords : List ByteCode → List Nat
  | [] => []
  | b :: rest => encodeRecord b ++ encodeRecords rest

/-- `write_bin`: the 8-byte little-endian count, then the records. -/
def write_bin (bin : List ByteCode) : List Nat :=
  leBytes 8 bin.length ++ encodeRecords bin

/-- `ByteCode::read_from_bin`: read 1 opcode byte and 8 value bytes,
failing (`Truncated`) when fewer bytes remain. -/
def readRecord (bytes : List Nat) : Option (ByteCode × List Nat) :=
  match bytes with
  | [] => none
  | op :: rest =>
    if 8 ≤ rest.length then some (⟨op, leVal (rest.take 8)⟩, rest.drop 8)
    else none

/-- The body of `read_bin`'s loop: read exactly `count` records. -/
def readRecords : Nat → List Nat → Option (List ByteCode)
  | 0, _ => some []
  | n + 1, bytes =>
    match readRecord bytes with
    | some (b, rest) => (readRecords n rest).map (fun l => b :: l)
    | none => none

/-- `read_bin`: read the 8-byte count, then that many records. -/
def read_bin (bytes : List Nat) : Option (List ByteCode) :=
  if 8 ≤ bytes.length then readRecords (leVal (bytes.take 8)) (bytes.drop 8)
  else none

/-! ## Codec lemmas -/

theorem leBytes_length (k n : Nat) : (leBytes k n).length = k := by
  induction k generalizing n with
  | zero => rfl
  | succ k ih => simp [leBytes, ih]

theorem leVal_leBytes (k n : Nat) (h : n < 256 ^ k) : leVal (leBytes k n) = n := by
  induction k generalizing n with
  | zero => simp [leBytes, leVal]; omega
  | succ k ih =>
    have hdiv : n / 256 < 256 ^ k := by
      rw [Nat.div_lt_iff_lt_mul (by norm_num)]
      calc n < 256 ^ (k + 1) := h
        _ = 256 ^ k * 256 := by ring
    simp [leBytes, leVal, ih _ hdiv]
    omega

theorem encodeRecords_length (p : List ByteCode) :
    (encodeRecords p).length = 9 * p.length := by
  induction p with
  | nil => rfl
  | cons b rest ih =>
    simp [encodeRecords, encodeRecord, ih, leBytes_length]
    ring

theorem readRecord_encodeRecord (b : ByteCode) (hv : b.value < 2 ^ 64)
    (tail : List Nat) :
    readRecord (encodeRecord b ++ tail) = some (b, tail) := by
  have hlen : (leBytes 8 b.value).length = 8 := leBytes_length 8 b.value
  have htake : ((leBytes 8 b.value ++ tail).take 8) = leBytes 8 b.value := by
    rw [← hlen]; exact List.take_left _ _
  have hdrop : ((leBytes 8 b.value ++ tail).drop 8) = tail := by
    rw [← hlen]; exact List.drop_left _ _
  have hv' : b.value < 256 ^ 8 := by norm_num at hv ⊢; exact hv
  simp [readRecord, encodeRecord, htake, hdrop, List.length_append, hlen,
    leVal_leBytes 8 b.value hv']

theorem readRecords_encodeRecords (p : List ByteCode)
    (hv : ∀ b ∈ p, b.value < 2 ^ 64) :
    readRecords p.length (encodeRecords p) = some p := by
  induction p with
  | nil => rfl
  | cons b rest ih =>
    have hb : b.value < 2 ^ 64 := hv b (by simp)
    have hrest : ∀ x ∈ rest, x.value < 2 ^ 64 := fun x hx => hv x (by simp [hx])
    simp [encodeRecords, readRecords, readRecord_encodeRecord b hb, ih hrest]

/-- **C7**: decoding the encoding of any program yields the program back:
`write_bin` emits the 8-byte little-endian record count followed by exactly
`count` 9-byte records, and `read_bin` undoes it.  The record values must
fit in `u64` and the count in `u64`, as they do for every Rust
`Vec<ByteCode>`. -/
theorem C7_roundtrip (p : List ByteCode) (hv : ∀ b ∈ p, b.value < 2 ^ 64)
    (hlen : p.length < 2 ^ 64) :
    read_bin (write_bin p) = some p ∧
    (write_bin p).length = 8 + 9 * p.length := by
  have h8 : (leBytes 8 p.length).length = 8 := leBytes_length 8 p.length
  have htake : ((leBytes 8 p.length ++ encodeRecords p).take 8) = leBytes 8 p.length := by
    rw [← h8]; exact List.take_left _ _
  have hdrop : ((leBytes 8 p.length ++ encodeRecords p).drop 8) = encodeRecords p := by
    rw [← h8]; exact List.drop_left _ _
  have hlen' : p.length < 256 ^ 8 := by norm_num at hlen ⊢; exact hlen
  constructor
  · simp [read_bin, write_bin, List.length_append, h8, htake, hdrop,
      leVal_leBytes 8 p.length hlen', readRecords_encodeRecords p hv]
  · simp [write_bin, List.length_append, h8, encodeRecords_length]

/-- **C7** witness: round-trip of the concrete two-record program
`[Push 5, Halt]`. -/
theorem C7_witness :
    read_bin (write_bin [⟨0, 5⟩, ⟨28, 0⟩]) = some [⟨0, 5⟩, ⟨28, 0⟩] ∧
    (write_bin [⟨0, 5⟩, ⟨28, 0⟩]).length = 8 + 9 * 2 :=
  C7_roundtrip [⟨0, 5⟩, ⟨28, 0⟩] (by decide) (by decide)

/-! ## Concrete executions for the corrected / buggy claims -/

/-- **C2** counterexample: the claim `0 ≤ pc ≤ len(program)` at every
instruction boundary fails on the one-instruction program `[Halt]`:
`halt` sets `pc = len = 1` but does not suppress the shared increment, so
the boundary after the loop exits has `pc = 2 > len`. -/
theorem C2_counterexample :
    (VM.run 5 (VMState.new [⟨28, 0⟩])).2 = true ∧
    (VM.run 5 (VMState.new [⟨28, 0⟩])).1.pc = 2 ∧
    ¬ (VM.run 5 (VMState.new [⟨28, 0⟩])).1.pc ≤ [(⟨28, 0⟩ : ByteCode)].length := by
  decide

/-- **C3** counterexample: on `[Push 7, Push 2, Cmp]` the top is `a = 2`
and below it `b = 7`; the claim demands `b − a = 5` on top, but `cmp`
computes `value1 − value2 = a − b`, leaving `2 ^ 64 − 5`. -/
theorem C3_counterexample :
    (VM.run 10 (VMState.new [⟨0, 7⟩, ⟨0, 2⟩, ⟨33, 0⟩])).2 = true ∧
    (VM.run 10 (VMState.new [⟨0, 7⟩, ⟨0, 2⟩, ⟨33, 0⟩])).1.sp = 1 ∧
    (VM.run 10 (VMState.new [⟨0, 7⟩, ⟨0, 2⟩, ⟨33, 0⟩])).1.stack 0 = 2 ^ 64 - 5 ∧
    (2 ^ 64 - 5 : Nat) ≠ 5 := by
  decide

/-- **C4**: `jmpp` pops and validates the target but never assigns `pc`.
On `[Push 0, Jmpp, Halt]` the popped target `0` is in bounds, yet after
the `Jmpp` iteration `pc` is still `1` (the claim demands `pc = 0`); the
increment is suppressed, so the VM re-executes the `Jmpp`, underflows and
the whole run aborts instead of jumping. -/
theorem C4_jmpp_never_sets_pc :
    (VM.iterN 2 (VMState.new [⟨0, 0⟩, ⟨27, 0⟩, ⟨28, 0⟩])).2 = true ∧
    (VM.iterN 2 (VMState.new [⟨0, 0⟩, ⟨27, 0⟩, ⟨28, 0⟩])).1.sp = 0 ∧
    (VM.iterN 2 (VMState.new [⟨0, 0⟩, ⟨27, 0⟩, ⟨28, 0⟩])).1.pc = 1 ∧
    (VM.run 10 (VMState.new [⟨0, 0⟩, ⟨27, 0⟩, ⟨28, 0⟩])).2 = false := by
  decide

/-- **C5**: the signed 8-bit `Sub8` opcode is wired to `add::<i8>` in
`VM::eval`.  On `[Push 5, Push 3, Sub8]` the claim demands
`b − a = 5 − 3 = 2` on top; the code computes `3 + 5 = 8`. -/
theorem C5_sub8_is_addition :
    (VM.run 10 (VMState.new [⟨0, 5⟩, ⟨0, 3⟩, ⟨11, 0⟩])).2 = true ∧
    (VM.run 10 (VMState.new [⟨0, 5⟩, ⟨0, 3⟩, ⟨11, 0⟩])).1.sp = 1 ∧
    (VM.run 10 (VMState.new [⟨0, 5⟩, ⟨0, 3⟩, ⟨11, 0⟩])).1.stack 0 = 8 := by
  decide

/-- **C6** counterexample: on `[Push 65, Prt, Halt]` the claim demands the
stack (and `sp`) unchanged after `Prt` — `sp` would be `1` at the end —
but `prt` pops without pushing the value back, so the final `sp` is `0`
(the character is still printed: the output holds scalar 65, `'A'`). -/
theorem C6_counterexample :
    (VM.run 10 (VMState.new [⟨0, 65⟩, ⟨22, 0⟩, ⟨28, 0⟩])).2 = true ∧
    (VM.run 10 (VMState.new [⟨0, 65⟩, ⟨22, 0⟩, ⟨28, 0⟩])).1.sp = 0 ∧
    (VM.run 10 (VMState.new [⟨0, 65⟩, ⟨22, 0⟩, ⟨28, 0⟩])).1.out = [65] := by
  decide

/-- **C8**: a `Jeq` that pops `0` with an out-of-bounds target does *not*
terminate the VM: `jeq` discards `jmp`'s failure.  On
`[Push 1, Push 0, Jeq 9]` (target `9 ≥ len = 3`) the run continues —
the `Jeq` is re-executed, pops the `1`, falls through — and the program
halts cleanly (`ok = true`, final `pc = 3`) instead of failing with
`BadTarget`. -/
theorem C8_jeq_bad_target_not_fatal :
    (VM.run 10 (VMState.new [⟨0, 1⟩, ⟨0, 0⟩, ⟨31, 9⟩])).2 = true ∧
    (VM.run 10 (VMState.new [⟨0, 1⟩, ⟨0, 0⟩, ⟨31, 9⟩])).1.pc = 3 := by
  decide

/-- **C9** counterexample: the procedure body
`[Push 1 … Push 9, Pop × 8, Ret]` lies entirely in the JIT-supported
subset and natively returns `1` (its private stack peaks at depth 9), but
interpreting the same procedure through `Call 1` on an empty caller stack
overflows the 10-word operand stack (2 frame words + 9 pushes) and the
interpreted run aborts with no result — the two executions do not produce
the same top-of-stack value. -/
theorem C9_counterexample :
    VM.jitCompiles [⟨0, 1⟩, ⟨0, 2⟩, ⟨0, 3⟩, ⟨0, 4⟩, ⟨0, 5⟩, ⟨0, 6⟩, ⟨0, 7⟩,
      ⟨0, 8⟩, ⟨0, 9⟩, ⟨1, 0⟩, ⟨1, 0⟩, ⟨1, 0⟩, ⟨1, 0⟩, ⟨1, 0⟩, ⟨1, 0⟩, ⟨1, 0⟩,
      ⟨1, 0⟩, ⟨29, 0⟩] = true ∧
    VM.nativeRun [⟨0, 1⟩, ⟨0, 2⟩, ⟨0, 3⟩, ⟨0, 4⟩, ⟨0, 5⟩, ⟨0, 6⟩, ⟨0, 7⟩,
      ⟨0, 8⟩, ⟨0, 9⟩, ⟨1, 0⟩, ⟨1, 0⟩, ⟨1, 0⟩, ⟨1, 0⟩, ⟨1, 0⟩, ⟨1, 0⟩, ⟨1, 0⟩,
      ⟨1, 0⟩, ⟨29, 0⟩] [] = some 1 ∧
    (VM.run 30 (VMState.new (⟨26, 1⟩ :: [⟨0, 1⟩, ⟨0, 2⟩, ⟨0, 3⟩, ⟨0, 4⟩,
      ⟨0, 5⟩, ⟨0, 6⟩, ⟨0, 7⟩, ⟨0, 8⟩, ⟨0, 9⟩, ⟨1, 0⟩, ⟨1, 0⟩, ⟨1, 0⟩, ⟨1, 0⟩,
      ⟨1, 0⟩, ⟨1, 0⟩, ⟨1, 0⟩, ⟨1, 0⟩, ⟨29, 0⟩]))).2 = false ∧
    (VM.run 30 (VMState.new (⟨26, 1⟩ :: [⟨0, 1⟩, ⟨0, 2⟩, ⟨0, 3⟩, ⟨0, 4⟩,
      ⟨0, 5⟩, ⟨0, 6⟩, ⟨0, 7⟩, ⟨0, 8⟩, ⟨0, 9⟩, ⟨1, 0⟩, ⟨1, 0⟩, ⟨1, 0⟩, ⟨1, 0⟩,
      ⟨1, 0⟩, ⟨1, 0⟩, ⟨1, 0⟩, ⟨1, 0⟩, ⟨29, 0⟩]))).1.sp = MAX_SIZE := by
  decide

/-- **C10**: the operand stack capacity the code compiles with is exactly
`MAX_SIZE = 10` words: `push` succeeds iff `sp < 10`, and the program of
11 consecutive `Push`es fails with a stack overflow at the 11th (the run
aborts, `sp` stuck at 10). -/
theorem C10_capacity :
    MAX_SIZE = 10 ∧
    (∀ (s : VMState) (v : Nat), s.sp ≤ MAX_SIZE →
      (((VM.push s v).1).isSome = true ↔ s.sp < 10)) ∧
    (VM.run 20 (VMState.new (List.replicate 11 ⟨0, 5⟩))).2 = false ∧
    (VM.run 20 (VMState.new (List.replicate 11 ⟨0, 5⟩))).1.sp = 10 ∧
    (VM.run 20 (VMState.new (List.replicate 11 ⟨0, 5⟩))).1.pc = 11 := by
  refine ⟨rfl, ?_, by decide, by decide, by decide⟩
  intro s v hsp
  unfold VM.push MAX_SIZE at *
  split
  · simp; omega
  · simp; omega

/-- **C10** witness: on the fresh VM for the 11-push program (`sp = 0`),
`push` succeeds. -/
theorem C10_witness :
    ((VM.push (VMState.new (List.replicate 11 ⟨0, 5⟩)) 5).1).isSome = true :=
  ((C10_capacity.2.1 (VMState.new (List.replicate 11 ⟨0, 5⟩)) 5
    (by decide)).2 (by decide))


/-! ## Single-step characterisations of the handlers -/

namespace VM

theorem intAdd64 (a c : Nat) : intAdd 64 false a c = (a + c) % 2 ^ 64 := by
  simp [intAdd, sext, Nat.add_mod]

theorem retPromote_proj (s : VMState) :
    (retPromote s).sp = s.sp ∧ (retPromote s).stack = s.stack ∧
    (retPromote s).pc = s.pc ∧ (retPromote s).bin = s.bin ∧
    (retPromote s).should_increment_pc = s.should_increment_pc ∧
    (retPromote s).out = s.out := by
  unfold retPromote jit
  repeat' split
  all_goals exact ⟨rfl, rfl, rfl, rfl, rfl, rfl⟩

theorem eval_push (s : VMState) (b : ByteCode)
    (ht : TokenType.fromOpcode b.opcode = .Push)
    (hsp : s.sp ≠ MAX_SIZE) (hflag : s.should_increment_pc = true) :
    eval s b = (some 0, { s with
      stack := updFn s.stack s.sp b.value, sp := s.sp + 1, pc := s.pc + 1 }) := by
  unfold eval evalCore push
  rw [ht]
  simp [hsp, hflag]

theorem iter_push (s : VMState) (b : ByteCode)
    (hb : s.bin.getD s.pc ⟨0, 0⟩ = b)
    (ht : TokenType.fromOpcode b.opcode = .Push)
    (hsp : s.sp ≠ MAX_SIZE) :
    iter s = (some 0, { s with
      stack := updFn s.stack s.sp b.value, sp := s.sp + 1, pc := s.pc + 1,
      should_increment_pc := true }) := by
  unfold iter
  rw [hb]
  rw [eval_push { s with should_increment_pc := true } b ht hsp rfl]

theorem eval_pop (s : VMState) (b : ByteCode)
    (ht : TokenType.fromOpcode b.opcode = .Pop)
    (hsp : s.sp ≠ 0) (hflag : s.should_increment_pc = true) :
    eval s b = (some (s.stack (s.sp - 1)), { s with
      sp := s.sp - 1, pc := s.pc + 1 }) := by
  unfold eval evalCore pop
  rw [ht]
  simp [hsp, hflag]

theorem iter_pop (s : VMState) (b : ByteCode)
    (hb : s.bin.getD s.pc ⟨0, 0⟩ = b)
    (ht : TokenType.fromOpcode b.opcode = .Pop)
    (hsp : s.sp ≠ 0) :
    iter s = (some (s.stack (s.sp - 1)), { s with
      sp := s.sp - 1, pc := s.pc + 1, should_increment_pc := true }) := by
  unfold iter
  rw [hb]
  rw [eval_pop { s with should_increment_pc := true } b ht hsp rfl]

theorem eval_swap (s : VMState) (b : ByteCode)
    (ht : TokenType.fromOpcode b.opcode = .Swap)
    (hk : b.value < s.sp) (hsp : s.sp ≤ MAX_SIZE)
    (hflag : s.should_increment_pc = true) :
    eval s b = (some 0, { s with
      stack := updFn (updFn s.stack (s.sp - 1 - b.value) (s.stack (s.sp - 1)))
        (s.sp - 1) (s.stack (s.sp - 1 - b.value)),
      sp := s.sp, pc := s.pc + 1 }) := by
  have h0 : s.sp ≠ 0 := by omega
  have h9 : s.sp - 1 ≠ MAX_SIZE := by unfold MAX_SIZE at *; omega
  have e2 : s.sp - 1 + 1 = s.sp := by omega
  unfold eval evalCore swap pop push
  rw [ht]
  simp [gt_iff_lt, hk, h0, h9, hflag, e2]

theorem iter_swap (s : VMState) (b : ByteCode)
    (hb : s.bin.getD s.pc ⟨0, 0⟩ = b)
    (ht : TokenType.fromOpcode b.opcode = .Swap)
    (hk : b.value < s.sp) (hsp : s.sp ≤ MAX_SIZE) :
    iter s = (some 0, { s with
      stack := updFn (updFn s.stack (s.sp - 1 - b.value) (s.stack (s.sp - 1)))
        (s.sp - 1) (s.stack (s.sp - 1 - b.value)),
      sp := s.sp, pc := s.pc + 1, should_increment_pc := true }) := by
  unfold iter
  rw [hb]
  rw [eval_swap { s with should_increment_pc := true } b ht hk hsp rfl]

theorem eval_uadd64 (s : VMState) (b : ByteCode)
    (ht : TokenType.fromOpcode b.opcode = .Uadd64)
    (h2 : 2 ≤ s.sp) (hsp : s.sp ≤ MAX_SIZE)
    (hflag : s.should_increment_pc = true) :
    eval s b = (some 0, { s with
      stack := updFn s.stack (s.sp - 2)
        ((s.stack (s.sp - 1) + s.stack (s.sp - 2)) % 2 ^ 64),
      sp := s.sp - 1, pc := s.pc + 1 }) := by
  have h0 : s.sp ≠ 0 := by omega
  have h1 : s.sp - 1 ≠ 0 := by omega
  have h9 : s.sp - 2 ≠ MAX_SIZE := by unfold MAX_SIZE at *; omega
  have e1 : s.sp - 1 - 1 = s.sp - 2 := by omega
  have e2 : s.sp - 2 + 1 = s.sp - 1 := by omega
  unfold eval evalCore add pop push
  rw [ht]
  simp [h0, h1, h9, hflag, e1, e2, intAdd64]

theorem iter_uadd64 (s : VMState) (b : ByteCode)
    (hb : s.bin.getD s.pc ⟨0, 0⟩ = b)
    (ht : TokenType.fromOpcode b.opcode = .Uadd64)
    (h2 : 2 ≤ s.sp) (hsp : s.sp ≤ MAX_SIZE) :
    iter s = (some 0, { s with
      stack := updFn s.stack (s.sp - 2)
        ((s.stack (s.sp - 1) + s.stack (s.sp - 2)) % 2 ^ 64),
      sp := s.sp - 1, pc := s.pc + 1, should_increment_pc := true }) := by
  unfold iter
  rw [hb]
  rw [eval_uadd64 { s with should_increment_pc := true } b ht h2 hsp rfl]

theorem iter_call (s : VMState) (b : ByteCode)
    (hb : s.bin.getD s.pc ⟨0, 0⟩ = b)
    (ht : TokenType.fromOpcode b.opcode = .Call)
    (hnc : s.compiled_procs b.value = none)
    (hcap : s.sp + 2 ≤ MAX_SIZE)
    (hT : b.value < s.bin.length) :
    (iter s).1 = some 0 ∧
    (iter s).2.pc = b.value ∧
    (iter s).2.sp = s.sp + 2 ∧
    (iter s).2.stack = updFn (updFn s.stack s.sp s.sp) (s.sp + 1) s.pc ∧
    (iter s).2.bin = s.bin ∧
    (iter s).2.proc_pc = b.value := by
  have h9 : s.sp ≠ MAX_SIZE := by unfold MAX_SIZE at *; omega
  have h9' : s.sp + 1 ≠ MAX_SIZE := by unfold MAX_SIZE at *; omega
  have hT' : ¬ b.value ≥ s.bin.length := by omega
  unfold iter eval evalCore call jmp push
  rw [hb, ht]
  simp [hnc, h9, h9', hT']

theorem iter_ret (s : VMState) (b : ByteCode)
    (hb : s.bin.getD s.pc ⟨0, 0⟩ = b)
    (ht : TokenType.fromOpcode b.opcode = .Ret)
    (h3 : 3 ≤ s.sp)
    (hp : s.stack (s.sp - 2) ≤ s.bin.length)
    (hspv : s.stack (s.sp - 3) < MAX_SIZE) :
    (iter s).1 = some 0 ∧
    (iter s).2.sp = s.stack (s.sp - 3) + 1 ∧
    (iter s).2.stack =
      updFn s.stack (s.stack (s.sp - 3)) (s.stack (s.sp - 1)) ∧
    (iter s).2.pc = s.stack (s.sp - 2) + 1 ∧
    (iter s).2.bin = s.bin := by
  have h0 : s.sp ≠ 0 := by omega
  have h1 : s.sp - 1 ≠ 0 := by omega
  have h2 : s.sp - 2 ≠ 0 := by omega
  have e1 : s.sp - 1 - 1 = s.sp - 2 := by omega
  have e2 : s.sp - 2 - 1 = s.sp - 3 := by omega
  obtain ⟨r1, r2, r3, r4, r5, r6⟩ :=
    retPromote_proj { s with should_increment_pc := true }
  unfold iter eval evalCore ret pop push
  rw [hb, ht]
  simp only [r1, r2, r3, r4, r5]
  have hp' : ¬ s.stack (s.sp - 2) > s.bin.length := by omega
  have hspv' : ¬ s.stack (s.sp - 3) > MAX_SIZE := by omega
  have hspv'' : s.stack (s.sp - 3) ≠ MAX_SIZE := by omega
  simp [h0, h1, h2, e1, e2, hp', hspv', hspv'']

end VM

/-! ## Claims C1, C2, C3, C6 -/

theorem updFn_same (f : Nat → Nat) (i v : Nat) : updFn f i v i = v := by
  simp [updFn]

theorem updFn_other (f : Nat → Nat) (i v j : Nat) (h : j ≠ i) :
    updFn f i v j = f j := by
  simp [updFn, h]

/-- **C1**: the interpreted call/return contract.  If the instruction at
`s.pc` is `Call T` with `T` a valid, non-promoted target and room for the
two frame words, the `Call` iteration pushes the caller's `sp` and `pc`
(the frame header) and jumps to `T`; and from any later state `s2` about
to execute `Ret` in which the callee has left exactly one value above the
intact frame header (`sp = pre-call sp + 3`), the `Ret` iteration restores
`sp` to one above its pre-call value with the returned value `r` on top
and sets `pc` past the `Call`. -/
theorem C1_call_ret (s s2 : VMState) (T rv : Nat)
    (hfetch : s.bin.getD s.pc ⟨0, 0⟩ = ⟨26, T⟩)
    (hnc : s.compiled_procs T = none)
    (hcap : s.sp + 2 ≤ MAX_SIZE)
    (hT : T < s.bin.length)
    (hpc : s.pc < s.bin.length)
    (hbin : s2.bin = s.bin)
    (hfetch2 : s2.bin.getD s2.pc ⟨0, 0⟩ = ⟨29, rv⟩)
    (hsp2 : s2.sp = s.sp + 3)
    (hh0 : s2.stack s.sp = s.sp)
    (hh1 : s2.stack (s.sp + 1) = s.pc) :
    ((VM.iter s).1 = some 0 ∧ (VM.iter s).2.pc = T ∧
     (VM.iter s).2.sp = s.sp + 2 ∧
     (VM.iter s).2.stack s.sp = s.sp ∧
     (VM.iter s).2.stack (s.sp + 1) = s.pc) ∧
    ((VM.iter s2).1 = some 0 ∧
     (VM.iter s2).2.sp = s.sp + 1 ∧
     (VM.iter s2).2.stack s.sp = s2.stack (s.sp + 2) ∧
     (VM.iter s2).2.pc = s.pc + 1) := by
  constructor
  · obtain ⟨c1, c2, c3, c4, c5, c6⟩ :=
      VM.iter_call s ⟨26, T⟩ hfetch rfl hnc hcap hT
    refine ⟨c1, c2, c3, ?_, ?_⟩
    · rw [c4, updFn_other _ _ _ _ (by omega), updFn_same]
    · rw [c4, updFn_same]
  · have h3 : 3 ≤ s2.sp := by omega
    have hm1 : s2.sp - 1 = s.sp + 2 := by omega
    have hm2 : s2.sp - 2 = s.sp + 1 := by omega
    have hm3 : s2.sp - 3 = s.sp := by omega
    have hp : s2.stack (s2.sp - 2) ≤ s2.bin.length := by
      rw [hm2, hh1, hbin]; omega
    have hspv : s2.stack (s2.sp - 3) < MAX_SIZE := by
      rw [hm3, hh0]; unfold MAX_SIZE at *; omega
    obtain ⟨r1, r2, r3, r4, r5⟩ :=
      VM.iter_ret s2 ⟨29, rv⟩ hfetch2 rfl h3 hp hspv
    refine ⟨r1, ?_, ?_, ?_⟩
    · rw [r2, hm3, hh0]
    · rw [r3, hm3, hh0, hm1, updFn_same]
    · rw [r4, hm2, hh1]

/-- **C1** witness: the concrete program `[Call 2, Halt, Push 7, Ret]`.
After the `Call` (iteration 1) and the callee's `Push 7` (iteration 2),
the state is about to execute `Ret` with exactly the value `7` above the
frame header; the theorem applies and the `Ret` iteration yields
`sp = 1`, top `7` and `pc = 1` (past the `Call` at `0`). -/
theorem C1_witness :
    ((VM.iter (VMState.new [⟨26, 2⟩, ⟨28, 0⟩, ⟨0, 7⟩, ⟨29, 0⟩])).1 = some 0 ∧
     (VM.iter (VMState.new [⟨26, 2⟩, ⟨28, 0⟩, ⟨0, 7⟩, ⟨29, 0⟩])).2.pc = 2 ∧
     (VM.iter (VMState.new [⟨26, 2⟩, ⟨28, 0⟩, ⟨0, 7⟩, ⟨29, 0⟩])).2.sp = 0 + 2 ∧
     (VM.iter (VMState.new [⟨26, 2⟩, ⟨28, 0⟩, ⟨0, 7⟩, ⟨29, 0⟩])).2.stack 0 = 0 ∧
     (VM.iter (VMState.new [⟨26, 2⟩, ⟨28, 0⟩, ⟨0, 7⟩, ⟨29, 0⟩])).2.stack (0 + 1) = 0) ∧
    ((VM.iter (VM.iterN 2 (VMState.new [⟨26, 2⟩, ⟨28, 0⟩, ⟨0, 7⟩, ⟨29, 0⟩])).1).1 = some 0 ∧
     (VM.iter (VM.iterN 2 (VMState.new [⟨26, 2⟩, ⟨28, 0⟩, ⟨0, 7⟩, ⟨29, 0⟩])).1).2.sp = 0 + 1 ∧
     (VM.iter (VM.iterN 2 (VMState.new [⟨26, 2⟩, ⟨28, 0⟩, ⟨0, 7⟩, ⟨29, 0⟩])).1).2.stack 0 =
       (VM.iterN 2 (VMState.new [⟨26, 2⟩, ⟨28, 0⟩, ⟨0, 7⟩, ⟨29, 0⟩])).1.stack (0 + 2) ∧
     (VM.iter (VM.iterN 2 (VMState.new [⟨26, 2⟩, ⟨28, 0⟩, ⟨0, 7⟩, ⟨29, 0⟩])).1).2.pc = 0 + 1) :=
  C1_call_ret (VMState.new [⟨26, 2⟩, ⟨28, 0⟩, ⟨0, 7⟩, ⟨29, 0⟩])
    (VM.iterN 2 (VMState.new [⟨26, 2⟩, ⟨28, 0⟩, ⟨0, 7⟩, ⟨29, 0⟩])).1 2 0
    (by decide) (by decide) (by decide) (by decide) (by decide) (by decide)
    (by decide) (by decide) (by decide) (by decide)

set_option maxHeartbeats 1000000 in
/-- `VM::ret` keeps the program unchanged, keeps `sp` within capacity and
either leaves `pc` alone (failure paths) or sets it to the popped return
address, which is checked against the program length. -/
theorem ret_inv (s : VMState) (hsp : s.sp ≤ MAX_SIZE) :
    (VM.ret s).2.bin = s.bin ∧ (VM.ret s).2.sp ≤ MAX_SIZE ∧
    ((VM.ret s).2.pc = s.pc ∨ (VM.ret s).2.pc ≤ s.bin.length) := by
  obtain ⟨r1, r2, r3, r4, r5, r6⟩ := VM.retPromote_proj s
  unfold VM.ret
  generalize hT : VM.retPromote s = t at r1 r2 r3 r4 r5 r6 ⊢
  unfold VM.pop VM.push
  have hM : MAX_SIZE = 10 := rfl
  have rlen : t.bin.length = s.bin.length := by rw [r4]
  by_cases c1 : t.sp = 0
  · simp [c1, r3, r4]
    try omega
  · by_cases c2 : t.sp - 1 = 0
    · simp [c1, c2, r3, r4]
      try omega
    · by_cases c3 : t.stack (t.sp - 1 - 1) > t.bin.length
      · rw [rlen] at c3
        simp [c1, c2, c3, r3, r4]
        try omega
      · rw [rlen] at c3
        have c3' : t.stack (t.sp - 1 - 1) ≤ s.bin.length := by omega
        by_cases c4 : t.sp - 1 - 1 = 0
        · rw [c4] at c3 c3'
          simp [c1, c2, c3, c4, c3', r3, r4, not_lt, MAX_SIZE]
          try omega
        · by_cases c5 : t.stack (t.sp - 1 - 1 - 1) > MAX_SIZE
          · simp [c1, c2, c3, c4, c5, r3, r4]
            try omega
          · by_cases c6 : t.stack (t.sp - 1 - 1 - 1) = MAX_SIZE
            · simp [c1, c2, c3, c4, c5, c6, r3, r4]
              try omega
            · simp [c1, c2, c3, c4, c5, c6, r3, r4]
              try omega
set_option maxHeartbeats 2000000 in
/-- Dispatch-level preservation: every opcode handler keeps the program
unchanged, keeps `sp` within capacity, and either leaves `pc` alone or
sets it to a valid program address (at most `len`). -/
theorem evalCore_inv (s : VMState) (b : ByteCode) (hsp : s.sp ≤ MAX_SIZE) :
    (VM.evalCore s b).2.bin = s.bin ∧ (VM.evalCore s b).2.sp ≤ MAX_SIZE ∧
    ((VM.evalCore s b).2.pc = s.pc ∨ (VM.evalCore s b).2.pc ≤ s.bin.length) := by
  unfold VM.evalCore
  cases ht : TokenType.fromOpcode b.opcode
  all_goals dsimp only
  case Ret => exact ret_inv s hsp
  all_goals simp only [VM.push, VM.pop, VM.add, VM.sub, VM.addf, VM.subf,
    VM.prt, VM.inc, VM.dup, VM.swap, VM.jmp, VM.call, VM.jmpp, VM.jeq,
    VM.jnz, VM.cmp, VM.halt, VM.int, MAX_SIZE] at *
  all_goals (repeat' split)
  all_goals (try simp_all)
  all_goals (try omega)

/-- Single-iteration preservation: one run-loop iteration keeps the program
unchanged, keeps `sp` within capacity, and can push `pc` at most one past
the end of the program. -/
theorem iter_inv (s : VMState) (hsp : s.sp ≤ MAX_SIZE)
    (hpc : s.pc < s.bin.length) :
    (VM.iter s).2.bin = s.bin ∧ (VM.iter s).2.sp ≤ MAX_SIZE ∧
    (VM.iter s).2.pc ≤ s.bin.length + 1 := by
  obtain ⟨e1, e2, e3⟩ :=
    evalCore_inv { s with should_increment_pc := true }
      (s.bin.getD s.pc ⟨0, 0⟩) hsp
  unfold VM.iter VM.eval
  rcases h : VM.evalCore { s with should_increment_pc := true }
    (s.bin.getD s.pc ⟨0, 0⟩) with ⟨r, t⟩
  rw [h] at e1 e2 e3
  have e3' : t.pc = s.pc ∨ t.pc ≤ s.bin.length := e3
  dsimp only
  split
  · refine ⟨e1, e2, ?_⟩
    show t.pc + 1 ≤ s.bin.length + 1
    rcases e3' with e | e <;> omega
  · refine ⟨e1, e2, ?_⟩
    show t.pc ≤ s.bin.length + 1
    rcases e3' with e | e <;> omega

/-- **C2** amended: at every instruction boundary of every execution
(`VM.run fuel s` visits exactly the first `fuel` boundaries, or stops at
the error/halt boundary), `0 ≤ sp ≤ CAPACITY` holds and
`0 ≤ pc ≤ len(program) + 1` — the upper bound `len(program)` of the claim
must be weakened by one because `halt` (and a `Ret` returning to address
`len`) sets `pc = len` and the dispatcher still increments it. -/
theorem C2_amended (fuel : Nat) (s : VMState) (hsp : s.sp ≤ MAX_SIZE)
    (hpc : s.pc ≤ s.bin.length + 1) :
    (VM.run fuel s).1.sp ≤ MAX_SIZE ∧
    (VM.run fuel s).1.pc ≤ (VM.run fuel s).1.bin.length + 1 := by
  induction fuel generalizing s with
  | zero => exact ⟨hsp, hpc⟩
  | succ fuel ih =>
    rw [VM.run]
    split
    · rename_i hlt
      obtain ⟨b1, b2, b3⟩ := iter_inv s hsp hlt
      rcases hit : VM.iter s with ⟨r, s'⟩
      rw [hit] at b1 b2 b3
      cases r with
      | none => simpa using ⟨b2, by rw [b1]; exact b3⟩
      | some v =>
        simpa using ih s' b2 (by rw [b1]; exact b3)
    · exact ⟨hsp, hpc⟩

/-- **C2** amended, witness: the invariant instantiated on the `[Halt]`
program from the counterexample: the final state has `sp ≤ 10` and
`pc ≤ len + 1 = 2`. -/
theorem C2_amended_witness :
    (VM.run 5 (VMState.new [⟨28, 0⟩])).1.sp ≤ MAX_SIZE ∧
    (VM.run 5 (VMState.new [⟨28, 0⟩])).1.pc ≤
      (VM.run 5 (VMState.new [⟨28, 0⟩])).1.bin.length + 1 :=
  C2_amended 5 (VMState.new [⟨28, 0⟩]) (by decide) (by decide)

/-- **C3** amended: `Cmp` pops `a` (the top) and `b` below it and pushes
`a − b` — top minus second — as a wrapping two's-complement 64-bit
subtraction (the claim's `b − a` has the operands reversed). -/
theorem C3_amended (s : VMState) (h2 : 2 ≤ s.sp) (hsp : s.sp ≤ MAX_SIZE) :
    (VM.cmp s).1 = some 0 ∧
    (VM.cmp s).2.sp = s.sp - 1 ∧
    (VM.cmp s).2.stack (s.sp - 2) =
      wsub64 (s.stack (s.sp - 1)) (s.stack (s.sp - 2)) ∧
    (VM.cmp s).2.pc = s.pc := by
  have h0 : s.sp ≠ 0 := by omega
  have h1 : s.sp - 1 ≠ 0 := by omega
  have h9 : s.sp - 2 ≠ MAX_SIZE := by unfold MAX_SIZE at *; omega
  have e1 : s.sp - 1 - 1 = s.sp - 2 := by omega
  have e2 : s.sp - 2 + 1 = s.sp - 1 := by omega
  unfold VM.cmp VM.pop VM.push
  simp [h0, h1, h9, e1, e2, updFn_same]

/-- **C3** amended, witness: `cmp` on the stack `[7, 2]` (top `2`) pushes
`2 − 7 = 2 ^ 64 − 5`. -/
theorem C3_amended_witness :
    (VM.cmp (VM.iterN 2 (VMState.new [⟨0, 7⟩, ⟨0, 2⟩, ⟨33, 0⟩])).1).1 = some 0 ∧
    (VM.cmp (VM.iterN 2 (VMState.new [⟨0, 7⟩, ⟨0, 2⟩, ⟨33, 0⟩])).1).2.sp = 2 - 1 ∧
    (VM.cmp (VM.iterN 2 (VMState.new [⟨0, 7⟩, ⟨0, 2⟩, ⟨33, 0⟩])).1).2.stack (2 - 2) =
      wsub64 ((VM.iterN 2 (VMState.new [⟨0, 7⟩, ⟨0, 2⟩, ⟨33, 0⟩])).1.stack (2 - 1))
        ((VM.iterN 2 (VMState.new [⟨0, 7⟩, ⟨0, 2⟩, ⟨33, 0⟩])).1.stack (2 - 2)) ∧
    (VM.cmp (VM.iterN 2 (VMState.new [⟨0, 7⟩, ⟨0, 2⟩, ⟨33, 0⟩])).1).2.pc =
      (VM.iterN 2 (VMState.new [⟨0, 7⟩, ⟨0, 2⟩, ⟨33, 0⟩])).1.pc := by
  have h := C3_amended (VM.iterN 2 (VMState.new [⟨0, 7⟩, ⟨0, 2⟩, ⟨33, 0⟩])).1
    (by decide) (by decide)
  simpa using h

/-- **C6** amended: `Prt` *consumes* its operand: with a non-empty stack
whose top's low 32 bits form a valid Unicode scalar, it prints the scalar,
returns the popped value as the handler result and leaves `sp` decreased
by one (the value is not pushed back; the stack array itself is
untouched); with invalid low bits it fails. -/
theorem C6_amended (s : VMState) (h1 : 1 ≤ s.sp) :
    (isValidChar (s.stack (s.sp - 1) % 2 ^ 32) →
      (VM.prt s).1 = some (s.stack (s.sp - 1)) ∧
      (VM.prt s).2.sp = s.sp - 1 ∧
      (VM.prt s).2.stack = s.stack ∧
      (VM.prt s).2.out = s.out ++ [s.stack (s.sp - 1) % 2 ^ 32]) ∧
    (¬ isValidChar (s.stack (s.sp - 1) % 2 ^ 32) →
      (VM.prt s).1 = none) := by
  have h0 : s.sp ≠ 0 := by omega
  constructor
  · intro hv
    unfold VM.prt VM.pop
    rw [if_neg h0]
    simp only []
    rw [if_pos hv]
    exact ⟨rfl, rfl, rfl, rfl⟩
  · intro hv
    unfold VM.prt VM.pop
    rw [if_neg h0]
    simp only []
    rw [if_neg hv]

/-- **C6** amended, witness: printing `'A'` (scalar 65) from the
single-value stack of the counterexample program consumes the value:
`sp` goes from 1 to 0 and scalar 65 is appended to the output. -/
theorem C6_amended_witness :
    (VM.prt (VM.iterN 1 (VMState.new [⟨0, 65⟩, ⟨22, 0⟩, ⟨28, 0⟩])).1).1 = some 65 ∧
    (VM.prt (VM.iterN 1 (VMState.new [⟨0, 65⟩, ⟨22, 0⟩, ⟨28, 0⟩])).1).2.sp = 0 ∧
    (VM.prt (VM.iterN 1 (VMState.new [⟨0, 65⟩, ⟨22, 0⟩, ⟨28, 0⟩])).1).2.out = [65] := by
  have h := (C6_amended (VM.iterN 1 (VMState.new [⟨0, 65⟩, ⟨22, 0⟩, ⟨28, 0⟩])).1
    (by decide)).1 (by decide)
  obtain ⟨a1, a2, a3, a4⟩ := h
  refine ⟨?_, ?_, ?_⟩
  · rw [a1]; decide
  · rw [a2]; decide
  · rw [a4]; decide


/-! ## Claim C9: the JIT equivalence -/

/-- The maximum-depth component of `nativeTrace` never decreases. -/
theorem nativeTrace_max_le : ∀ (body : List ByteCode) (st : List Nat)
    (m0 r m : Nat), VM.nativeTrace body st m0 = some (r, m) → m0 ≤ m := by
  intro body
  induction body with
  | nil => intro st m0 r m hn; simp [VM.nativeTrace] at hn
  | cons b rest ih =>
    intro st m0 r m hn
    cases htt : TokenType.fromOpcode b.opcode
    all_goals simp only [VM.nativeTrace, htt] at hn
    all_goals try exact Option.noConfusion hn
    · -- Push
      have := ih _ _ _ _ hn
      omega
    · -- Pop
      cases st with
      | nil => exact Option.noConfusion hn
      | cons c st' => exact ih _ _ _ _ hn
    · -- Uadd64
      cases st with
      | nil => exact Option.noConfusion hn
      | cons a st2 =>
        cases st2 with
        | nil => exact Option.noConfusion hn
        | cons c st' => exact ih _ _ _ _ hn
    · -- Ret
      cases st with
      | nil => exact Option.noConfusion hn
      | cons c st' =>
        cases st' with
        | nil =>
          simp at hn
          omega
        | cons d st'' => exact Option.noConfusion hn
    · -- Swap
      by_cases hk : b.value < st.length
      · rw [if_pos hk] at hn
        exact ih _ _ _ _ hn
      · rw [if_neg hk] at hn
        exact Option.noConfusion hn

/-- `swapList` preserves the length. -/
theorem swapList_length (st : List Nat) (k : Nat) :
    (VM.swapList st k).length = st.length := by
  simp [VM.swapList]

/-- Pointwise description of `swapList`: position `0` receives the old
element `k`, position `k` the old top, all others are unchanged. -/
theorem swapList_getD (st : List Nat) (k j : Nat) (hk : k < st.length)
    (hj : j < st.length) :
    (VM.swapList st k).getD j 0 =
      if j = 0 then st.getD k 0
      else if j = k then st.getD 0 0
      else st.getD j 0 := by
  have h0 : 0 < st.length := by omega
  unfold VM.swapList
  by_cases hj0 : j = 0
  · subst hj0
    rw [if_pos rfl]
    by_cases hk0 : k = 0
    · subst hk0
      rw [List.getD_eq_getElem?_getD,
        List.getElem?_set_eq_of_lt _ (by simpa using hk), Option.getD_some]
    · rw [List.getD_eq_getElem?_getD,
        List.getElem?_set_ne (by omega : k ≠ 0),
        List.getElem?_set_eq_of_lt _ (by simpa using h0), Option.getD_some,
        List.getD_eq_getElem?_getD, List.getElem?_eq_getElem hk,
        Option.getD_some]
  · rw [if_neg hj0]
    by_cases hjk : j = k
    · subst hjk
      rw [if_pos rfl, List.getD_eq_getElem?_getD,
        List.getElem?_set_eq_of_lt _ (by simpa using hj), Option.getD_some,
        List.getD_eq_getElem?_getD, List.getElem?_eq_getElem h0,
        Option.getD_some]
    · rw [if_neg hjk, List.getD_eq_getElem?_getD,
        List.getElem?_set_ne (by omega : k ≠ j),
        List.getElem?_set_ne (by omega : 0 ≠ j),
        ← List.getD_eq_getElem?_getD]

/-- Simulation of the JIT-emitted native code by the interpreter, generalised
over the procedure's private native stack `st`.  The interpreter state `s`
holds the caller stack below `sp0`, the frame header `(sp0, pc0)` at
`sp0, sp0 + 1`, and the private values above it (`st` top-first); the body
instructions sit at `s.pc, s.pc + 1, …` in the program.  If the native
execution is well defined with maximal depth `m` and the interpreter has
room for it (`sp0 + 2 + m ≤ 10`), then after at most `body.length` run-loop
iterations the interpreter executes the `Ret` with exactly the native
result above the intact header, restoring `sp = sp0 + 1` with the native
result on top and `pc` past the call site. -/
theorem jitSim (sp0 pc0 : Nat) : ∀ (body : List ByteCode) (st : List Nat)
    (s : VMState) (r m m0 : Nat),
    VM.nativeTrace body st m0 = some (r, m) →
    st.length ≤ m0 →
    sp0 + 2 + m ≤ MAX_SIZE →
    s.sp = sp0 + 2 + st.length →
    (∀ i, i < st.length → s.stack (sp0 + 2 + i) = st.getD (st.length - 1 - i) 0) →
    s.stack sp0 = sp0 →
    s.stack (sp0 + 1) = pc0 →
    (∀ i, i < body.length → s.bin.getD (s.pc + i) ⟨0, 0⟩ = body.getD i ⟨0, 0⟩) →
    s.pc + body.length ≤ s.bin.length →
    pc0 < s.bin.length →
    ∃ k, k ≤ body.length ∧ (VM.iterN k s).2 = true ∧
      (VM.iterN k s).1.sp = sp0 + 1 ∧ (VM.iterN k s).1.stack sp0 = r ∧
      (VM.iterN k s).1.pc = pc0 + 1 := by
  intro body
  induction body with
  | nil =>
    intro st s r m m0 hn
    exact absurd hn (by simp [VM.nativeTrace])
  | cons b rest ih =>
    intro st s r m m0 hn hlm hcap hsp hstk hh0 hh1 hfetch hlen hpc0
    have hb : s.bin.getD s.pc ⟨0, 0⟩ = b := by
      have h := hfetch 0 (by simp)
      simpa using h
    have hMle : m0 ≤ m := nativeTrace_max_le (b :: rest) st m0 r m hn
    cases htt : TokenType.fromOpcode b.opcode
    all_goals simp only [VM.nativeTrace, htt] at hn
    all_goals try exact Option.noConfusion hn
    · -- Push
      have hm1 : st.length + 1 ≤ m := by
        have := nativeTrace_max_le rest (b.value :: st) _ r m hn
        omega
      have hne : s.sp ≠ MAX_SIZE := by
        unfold MAX_SIZE at *
        omega
      have hstep := VM.iter_push s b hb htt hne
      obtain ⟨k, hk, hok, hsp', hstk', hpc'⟩ :=
        ih (b.value :: st)
          { s with
            stack := updFn s.stack s.sp b.value, sp := s.sp + 1,
            pc := s.pc + 1, should_increment_pc := true }
          r m (max m0 (st.length + 1)) hn
          (by simp) hcap (by simp [hsp]; omega)
          (by
            intro i hi
            simp only [List.length_cons] at hi
            by_cases hiL : i = st.length
            · subst hiL
              show updFn s.stack s.sp b.value (sp0 + 2 + st.length) =
                (b.value :: st).getD (st.length + 1 - 1 - st.length) 0
              rw [← hsp, updFn_same]
              simp
            · show updFn s.stack s.sp b.value (sp0 + 2 + i) =
                (b.value :: st).getD (st.length + 1 - 1 - i) 0
              rw [updFn_other _ _ _ _ (by omega)]
              have hv := hstk i (by omega)
              rw [hv]
              have : st.length + 1 - 1 - i = (st.length - 1 - i) + 1 := by omega
              rw [this]
              rfl)
          (by
            show updFn s.stack s.sp b.value sp0 = sp0
            rw [updFn_other _ _ _ _ (by omega), hh0])
          (by
            show updFn s.stack s.sp b.value (sp0 + 1) = pc0
            rw [updFn_other _ _ _ _ (by omega), hh1])
          (by
            intro i hi
            have h2 := hfetch (i + 1) (by simp; omega)
            rw [show s.pc + (i + 1) = s.pc + 1 + i by omega] at h2
            simpa using h2)
          (by simp at hlen ⊢; omega)
          (by simpa using hpc0)
      refine ⟨k + 1, by simp; omega, ?_, ?_, ?_, ?_⟩
      all_goals rw [show VM.iterN (k + 1) s = VM.iterN k
        { s with
          stack := updFn s.stack s.sp b.value, sp := s.sp + 1,
          pc := s.pc + 1, should_increment_pc := true } by
        simp [VM.iterN, hstep]]
      · exact hok
      · exact hsp'
      · exact hstk'
      · exact hpc'
    · -- Pop
      cases st with
      | nil => exact Option.noConfusion hn
      | cons c st' =>
        have hne0 : s.sp ≠ 0 := by simp at hsp; omega
        have hstep := VM.iter_pop s b hb htt hne0
        obtain ⟨k, hk, hok, hsp', hstk', hpc'⟩ :=
          ih st'
            { s with
              sp := s.sp - 1, pc := s.pc + 1, should_increment_pc := true }
            r m m0 hn
            (by simp at hlm ⊢; omega)
            hcap
            (by simp at hsp ⊢; omega)
            (by
              intro i hi
              show s.stack (sp0 + 2 + i) = st'.getD (st'.length - 1 - i) 0
              have hv := hstk i (by simp; omega)
              rw [hv, show (c :: st').length - 1 - i = (st'.length - 1 - i) + 1
                from by simp; omega]
              rfl)
            hh0 hh1
            (by
              intro i hi
              have h2 := hfetch (i + 1) (by simp; omega)
              rw [show s.pc + (i + 1) = s.pc + 1 + i by omega] at h2
              simpa using h2)
            (by simp at hlen ⊢; omega)
            (by simpa using hpc0)
        refine ⟨k + 1, by simp; omega, ?_, ?_, ?_, ?_⟩
        all_goals rw [show VM.iterN (k + 1) s = VM.iterN k
          { s with
            sp := s.sp - 1, pc := s.pc + 1, should_increment_pc := true } by
          simp [VM.iterN, hstep]]
        · exact hok
        · exact hsp'
        · exact hstk'
        · exact hpc'
    · -- Uadd64
      cases st with
      | nil => exact Option.noConfusion hn
      | cons a st2 =>
        cases st2 with
        | nil => exact Option.noConfusion hn
        | cons c st' =>
          have hL : 2 ≤ s.sp := by simp at hsp; omega
          have hsp10 : s.sp ≤ MAX_SIZE := by
            unfold MAX_SIZE at *
            simp at hsp hlm
            omega
          have hstep := VM.iter_uadd64 s b hb htt hL hsp10
          have htop : s.stack (s.sp - 1) = a := by
            have hv := hstk (st'.length + 1) (by simp)
            rw [show sp0 + 2 + (st'.length + 1) = s.sp - 1 from by
              simp at hsp; omega] at hv
            simpa using hv
          have hsec : s.stack (s.sp - 2) = c := by
            have hv := hstk st'.length (by simp only [List.length_cons]; omega)
            rw [show sp0 + 2 + st'.length = s.sp - 2 from by
              simp at hsp; omega] at hv
            simpa using hv
          obtain ⟨k, hk, hok, hsp', hstk', hpc'⟩ :=
            ih (((a + c) % 2 ^ 64) :: st')
              { s with
                stack := updFn s.stack (s.sp - 2)
                  ((s.stack (s.sp - 1) + s.stack (s.sp - 2)) % 2 ^ 64),
                sp := s.sp - 1, pc := s.pc + 1, should_increment_pc := true }
              r m m0 hn
              (by simp at hlm ⊢; omega)
              hcap
              (by simp at hsp ⊢; omega)
              (by
                intro i hi
                simp only [List.length_cons] at hi
                by_cases hiL : i = st'.length
                · subst hiL
                  show updFn s.stack (s.sp - 2)
                    ((s.stack (s.sp - 1) + s.stack (s.sp - 2)) % 2 ^ 64)
                    (sp0 + 2 + st'.length) = _
                  rw [show sp0 + 2 + st'.length = s.sp - 2 from by
                    simp at hsp; omega, updFn_same, htop, hsec]
                  simp
                · show updFn s.stack (s.sp - 2)
                    ((s.stack (s.sp - 1) + s.stack (s.sp - 2)) % 2 ^ 64)
                    (sp0 + 2 + i) = _
                  rw [updFn_other _ _ _ _ (by simp at hsp; omega)]
                  have hv := hstk i (by simp; omega)
                  rw [hv, show (a :: c :: st').length - 1 - i =
                    ((st'.length - 1 - i) + 1) + 1 from by simp; omega,
                    show ((a + c) % 2 ^ 64 :: st').length - 1 - i =
                    (st'.length - 1 - i) + 1 from by simp; omega]
                  rfl)
              (by
                show updFn s.stack (s.sp - 2) _ sp0 = sp0
                rw [updFn_other _ _ _ _ (by simp at hsp; omega), hh0])
              (by
                show updFn s.stack (s.sp - 2) _ (sp0 + 1) = pc0
                rw [updFn_other _ _ _ _ (by simp at hsp; omega), hh1])
              (by
                intro i hi
                have h2 := hfetch (i + 1) (by simp; omega)
                rw [show s.pc + (i + 1) = s.pc + 1 + i by omega] at h2
                simpa using h2)
              (by simp at hlen ⊢; omega)
              (by simpa using hpc0)
          refine ⟨k + 1, by simp; omega, ?_, ?_, ?_, ?_⟩
          all_goals rw [show VM.iterN (k + 1) s = VM.iterN k
            { s with
              stack := updFn s.stack (s.sp - 2)
                ((s.stack (s.sp - 1) + s.stack (s.sp - 2)) % 2 ^ 64),
              sp := s.sp - 1, pc := s.pc + 1, should_increment_pc := true } by
            simp [VM.iterN, hstep]]
          · exact hok
          · exact hsp'
          · exact hstk'
          · exact hpc'
    · -- Ret
      cases st with
      | nil => exact Option.noConfusion hn
      | cons c st' =>
        cases st' with
        | cons d st'' => exact Option.noConfusion hn
        | nil =>
          have hcr : c = r ∧ m0 = m := by
            simpa using hn
          obtain ⟨rfl, rfl⟩ := hcr
          have hsp3 : s.sp = sp0 + 3 := by simp at hsp; omega
          have h3 : 3 ≤ s.sp := by omega
          have hp : s.stack (s.sp - 2) ≤ s.bin.length := by
            rw [show s.sp - 2 = sp0 + 1 by omega, hh1]
            omega
          have hspv : s.stack (s.sp - 3) < MAX_SIZE := by
            rw [show s.sp - 3 = sp0 by omega, hh0]
            unfold MAX_SIZE at *
            simp at hlm
            omega
          obtain ⟨r1, r2, r3, r4, r5⟩ := VM.iter_ret s b hb htt h3 hp hspv
          rcases hi : VM.iter s with ⟨rr, ss⟩
          rw [hi] at r1 r2 r3 r4 r5
          simp only at r1
          refine ⟨1, by simp, ?_, ?_, ?_, ?_⟩
          · simp [VM.iterN, hi, r1]
          · simp [VM.iterN, hi, r1]
            rw [r2, show s.sp - 3 = sp0 by omega, hh0]
          · simp [VM.iterN, hi, r1]
            rw [r3, show s.sp - 3 = sp0 by omega, hh0, updFn_same,
              show s.sp - 1 = sp0 + 2 by omega]
            have hv := hstk 0 (by simp)
            simpa using hv
          · simp [VM.iterN, hi, r1]
            rw [r4, show s.sp - 2 = sp0 + 1 by omega, hh1]
    · -- Swap
      by_cases hkk : b.value < st.length
      · rw [if_pos hkk] at hn
        have hks : b.value < s.sp := by omega
        have hsp10 : s.sp ≤ MAX_SIZE := by
          unfold MAX_SIZE at *
          omega
        have hstep := VM.iter_swap s b hb htt hks hsp10
        obtain ⟨k, hk, hok, hsp', hstk', hpc'⟩ :=
          ih (VM.swapList st b.value)
            { s with
              stack := updFn (updFn s.stack (s.sp - 1 - b.value)
                (s.stack (s.sp - 1))) (s.sp - 1) (s.stack (s.sp - 1 - b.value)),
              sp := s.sp, pc := s.pc + 1, should_increment_pc := true }
            r m m0 hn
            (by rw [swapList_length]; omega)
            hcap
            (by rw [swapList_length]; exact hsp)
            (by
              intro i hi
              rw [swapList_length] at hi
              by_cases hi1 : i = st.length - 1
              · subst hi1
                show updFn (updFn s.stack (s.sp - 1 - b.value)
                  (s.stack (s.sp - 1))) (s.sp - 1)
                  (s.stack (s.sp - 1 - b.value)) (sp0 + 2 + (st.length - 1)) =
                  (VM.swapList st b.value).getD
                    ((VM.swapList st b.value).length - 1 - (st.length - 1)) 0
                rw [show sp0 + 2 + (st.length - 1) = s.sp - 1 from by omega,
                  updFn_same]
                have hv := hstk (st.length - 1 - b.value) (by omega)
                rw [show s.sp - 1 - b.value = sp0 + 2 + (st.length - 1 - b.value)
                  from by omega, hv,
                  show st.length - 1 - (st.length - 1 - b.value) = b.value
                  from by omega,
                  swapList_length,
                  show st.length - 1 - (st.length - 1) = 0 from by omega,
                  swapList_getD st b.value 0 hkk (by omega), if_pos rfl]
              · by_cases hi2 : i = st.length - 1 - b.value
                · subst hi2
                  show updFn (updFn s.stack (s.sp - 1 - b.value)
                    (s.stack (s.sp - 1))) (s.sp - 1)
                    (s.stack (s.sp - 1 - b.value))
                    (sp0 + 2 + (st.length - 1 - b.value)) =
                    (VM.swapList st b.value).getD
                      ((VM.swapList st b.value).length - 1 -
                        (st.length - 1 - b.value)) 0
                  rw [updFn_other _ _ _ _ (by omega),
                    show sp0 + 2 + (st.length - 1 - b.value) = s.sp - 1 - b.value
                    from by omega, updFn_same]
                  have hv := hstk (st.length - 1) (by omega)
                  rw [show s.sp - 1 = sp0 + 2 + (st.length - 1) from by omega, hv,
                    show st.length - 1 - (st.length - 1) = 0 from by omega,
                    swapList_length,
                    show st.length - 1 - (st.length - 1 - b.value) = b.value
                    from by omega,
                    swapList_getD st b.value b.value hkk (by omega),
                    if_neg (by omega), if_pos rfl]
                · show updFn (updFn s.stack (s.sp - 1 - b.value)
                    (s.stack (s.sp - 1))) (s.sp - 1)
                    (s.stack (s.sp - 1 - b.value)) (sp0 + 2 + i) =
                    (VM.swapList st b.value).getD
                      ((VM.swapList st b.value).length - 1 - i) 0
                  rw [updFn_other _ _ _ _ (by omega),
                    updFn_other _ _ _ _ (by omega)]
                  have hv := hstk i (by omega)
                  rw [hv, swapList_length,
                    swapList_getD st b.value (st.length - 1 - i) hkk (by omega),
                    if_neg (by omega), if_neg (by omega)])
            (by
              show updFn (updFn s.stack (s.sp - 1 - b.value)
                (s.stack (s.sp - 1))) (s.sp - 1)
                (s.stack (s.sp - 1 - b.value)) sp0 = sp0
              rw [updFn_other _ _ _ _ (by omega),
                updFn_other _ _ _ _ (by omega), hh0])
            (by
              show updFn (updFn s.stack (s.sp - 1 - b.value)
                (s.stack (s.sp - 1))) (s.sp - 1)
                (s.stack (s.sp - 1 - b.value)) (sp0 + 1) = pc0
              rw [updFn_other _ _ _ _ (by omega),
                updFn_other _ _ _ _ (by omega), hh1])
            (by
              intro i hi
              have h2 := hfetch (i + 1) (by simp; omega)
              rw [show s.pc + (i + 1) = s.pc + 1 + i by omega] at h2
              simpa using h2)
            (by simp at hlen ⊢; omega)
            (by simpa using hpc0)
        refine ⟨k + 1, by simp; omega, ?_, ?_, ?_, ?_⟩
        all_goals rw [show VM.iterN (k + 1) s = VM.iterN k
          { s with
            stack := updFn (updFn s.stack (s.sp - 1 - b.value)
              (s.stack (s.sp - 1))) (s.sp - 1) (s.stack (s.sp - 1 - b.value)),
            sp := s.sp, pc := s.pc + 1, should_increment_pc := true } by
          simp [VM.iterN, hstep]]
        · exact hok
        · exact hsp'
        · exact hstk'
        · exact hpc'
      · rw [if_neg hkk] at hn
        exact Option.noConfusion hn

/-- **C9** amended: JIT equivalence holds *conditionally*: for a procedure
body in the JIT-supported subset whose native execution is well defined
(`nativeTrace` succeeds: it never touches the host stack at or beyond the
return address and ends the `Ret` with exactly one private value) with
peak private depth `m`, and whose interpreted execution has room for the
frame and that depth (`sp0 + 2 + m ≤ 10` — the counterexample shows the
claim fails without this), native execution and the interpreter agree:
the native function returns `r`, and interpreting the same body from the
post-`Call` state leaves the same `r` as the caller's top of stack. -/
theorem C9_amended (body : List ByteCode) (s : VMState) (sp0 pc0 r m : Nat)
    (hn : VM.nativeTrace body [] 0 = some (r, m))
    (hcap : sp0 + 2 + m ≤ MAX_SIZE)
    (hsp : s.sp = sp0 + 2)
    (hh0 : s.stack sp0 = sp0)
    (hh1 : s.stack (sp0 + 1) = pc0)
    (hfetch : ∀ i, i < body.length →
      s.bin.getD (s.pc + i) ⟨0, 0⟩ = body.getD i ⟨0, 0⟩)
    (hlen : s.pc + body.length ≤ s.bin.length)
    (hpc0 : pc0 < s.bin.length) :
    VM.nativeRun body [] = some r ∧
    ∃ k, k ≤ body.length ∧ (VM.iterN k s).2 = true ∧
      (VM.iterN k s).1.sp = sp0 + 1 ∧ (VM.iterN k s).1.stack sp0 = r ∧
      (VM.iterN k s).1.pc = pc0 + 1 := by
  constructor
  · simp [VM.nativeRun, hn]
  · exact jitSim sp0 pc0 body [] s r m 0 hn (by simp) hcap (by simpa using hsp)
      (by intro i hi; simp at hi) hh0 hh1 hfetch hlen hpc0

/-- **C9** amended, witness: the procedure `[Push 7, Ret]` of the program
`[Call 2, Halt, Push 7, Ret]`, interpreted from the post-`Call` state:
native and interpreted executions both deliver `7` on top with
`sp = 1` and `pc` back past the `Call`. -/
theorem C9_amended_witness :
    VM.nativeRun [⟨0, 7⟩, ⟨29, 0⟩] [] = some 7 ∧
    ∃ k, k ≤ ([⟨0, 7⟩, ⟨29, 0⟩] : List ByteCode).length ∧
      (VM.iterN k (VM.iterN 1
        (VMState.new [⟨26, 2⟩, ⟨28, 0⟩, ⟨0, 7⟩, ⟨29, 0⟩])).1).2 = true ∧
      (VM.iterN k (VM.iterN 1
        (VMState.new [⟨26, 2⟩, ⟨28, 0⟩, ⟨0, 7⟩, ⟨29, 0⟩])).1).1.sp = 0 + 1 ∧
      (VM.iterN k (VM.iterN 1
        (VMState.new [⟨26, 2⟩, ⟨28, 0⟩, ⟨0, 7⟩, ⟨29, 0⟩])).1).1.stack 0 = 7 ∧
      (VM.iterN k (VM.iterN 1
        (VMState.new [⟨26, 2⟩, ⟨28, 0⟩, ⟨0, 7⟩, ⟨29, 0⟩])).1).1.pc = 0 + 1 :=
  C9_amended [⟨0, 7⟩, ⟨29, 0⟩]
    (VM.iterN 1 (VMState.new [⟨26, 2⟩, ⟨28, 0⟩, ⟨0, 7⟩, ⟨29, 0⟩])).1
    0 0 7 1 (by decide) (by decide) (by decide) (by decide) (by decide)
    (by decide) (by decide) (by decide)

end SSM
